import Mathlib

/-!
Verification development for a Galaxy FASTQ-to-FASTA orchestration script
(src/galaxy.py).  The Python functions are shallowly embedded as Lean
definitions; Python strings become `String`, Python `None`-able values become
`Option`, Python dicts (insertion ordered) become association lists with an
insertion-order-preserving update, and the two polling loops are embedded as
recursion over a finite trace of observed poll results.
-/

set_option autoImplicit false

namespace Galaxy

/-! ### Python string primitives

`strContains hay needle` models Python `needle in hay` (substring test),
`strLower` models `str.lower()` on ASCII data, and `strEndsWith` models
`str.endswith`.  All are structural so concrete instances reduce by `rfl`. -/

def listIsPref : List Char → List Char → Bool
  | [], _ => true
  | _ :: _, [] => false
  | a :: as, b :: bs => a == b && listIsPref as bs

def listInfix (needle : List Char) : List Char → Bool
  | [] => needle.isEmpty
  | b :: bs => listIsPref needle (b :: bs) || listInfix needle bs

def strContains (hay needle : String) : Bool :=
  listInfix needle.data hay.data

def lowerChar (c : Char) : Char :=
  if 'A' ≤ c ∧ c ≤ 'Z' then Char.ofNat (c.toNat + 32) else c

def strLower (s : String) : String :=
  ⟨s.data.map lowerChar⟩

def strEndsWith (hay suf : String) : Bool :=
  listIsPref suf.data.reverse hay.data.reverse

/-- Python `a or b` on an optional string `a` and fallback string `b`
(`None` and `''` are falsy). -/
def pyOrS (a : Option String) (b : String) : String :=
  match a with
  | none => b
  | some s => if s = "" then b else s

/-- Python `a or b` where both sides are optional strings. -/
def pyOrOpt (a b : Option String) : Option String :=
  match a with
  | none => b
  | some s => if s = "" then b else some s

/-- Python truthiness of an optional string (`None` and `''` are falsy). -/
def truthyO (a : Option String) : Bool :=
  match a with
  | none => false
  | some s => s ≠ ""

def optStr (a : Option String) : String :=
  a.getD ""

/-! ### Python dict as an insertion-ordered association list -/

/-- `d[k] = v` on a Python dict: an existing key keeps its position and gets
the new value, a new key is appended. -/
def pyDictInsert {β : Type} (m : List (String × β)) (k : String) (v : β) :
    List (String × β) :=
  if m.any (fun p => p.1 == k) then
    m.map (fun p => if p.1 == k then (k, v) else p)
  else m ++ [(k, v)]

/-- `d.get(k)` on a Python dict. -/
def pyGet {β : Type} (m : List (String × β)) (k : String) : Option β :=
  match m.find? (fun p => p.1 == k) with
  | some p => some p.2
  | none => none

/-! ### Tool input schema trees (`tool_info['inputs']`)

Each node carries `name`, `id`, `label`, `help` (all possibly absent),
a `type` tag and a (possibly empty) list of nested inputs; a missing
`inputs` key in the Python dict is the empty list here. -/

inductive InputNode where
  | node (name id label help : Option String) (type_ : String)
      (inputs : List InputNode)

def nodeName : InputNode → String
  | .node nm idv _ _ _ _ => pyOrS nm (pyOrS idv "")

def nodeLabel : InputNode → String
  | .node _ _ lb hp _ _ => pyOrS lb (pyOrS hp "")

def nodeType : InputNode → String
  | .node _ _ _ _ ty _ => ty

def nodeChildren : InputNode → List InputNode
  | .node _ _ _ _ _ ch => ch

/-- `lname + ' ' + llabel` from `find_input_slots_for_reads`. -/
def combinedText (n : InputNode) : String :=
  strLower (nodeName n) ++ " " ++ strLower (nodeLabel n)

/-- The mutable accumulator of `find_input_slots_for_reads`. -/
structure SlotState where
  single : Option String
  left : Option String
  right : Option String
  explicit_single : Option String
  explicit_fwd : Option String
  explicit_rev : Option String
deriving Repr, DecidableEq

def initSlots : SlotState :=
  ⟨none, none, none, none, none, none⟩

def leftTriggers : List String :=
  ["left", "read1", "r1", "forward", "paired 1", "paired_end_1"]

def rightTriggers : List String :=
  ["right", "read2", "r2", "reverse", "paired 2", "paired_end_2"]

def isDataType (ty : String) : Bool :=
  ty == "data" || ty == "data_collection" || ty == "data_input"

/-- One loop iteration of `walk_inputs` restricted to the visited node itself
(the recursion into `inp['inputs']` is in `walkList`).  Direct transliteration
of src/galaxy.py lines 83-104. -/
def stepNode (s : SlotState) (n : InputNode) : SlotState :=
  let name := nodeName n
  let lname := strLower name
  let combined := combinedText n
  let s1 := if strContains lname "single_reads" then
      { s with explicit_single := some name } else s
  let s2 := if strContains lname "fwd_reads" || strContains lname "forward_reads" then
      { s1 with explicit_fwd := some name } else s1
  let s3 := if strContains lname "rev_reads" || strContains lname "reverse_reads" then
      { s2 with explicit_rev := some name } else s2
  if isDataType (nodeType n) then
    if leftTriggers.any (fun x => strContains combined x) then
      { s3 with left := some name }
    else if rightTriggers.any (fun x => strContains combined x) then
      { s3 with right := some name }
    else if strContains combined "reads" || strContains combined "fastq"
        || strContains combined "sequence" then
      if s3.single = none then { s3 with single := some name } else s3
    else s3
  else s3

/-- `walk_inputs` of src/galaxy.py lines 81-106: visit each node, then recurse
into its nested inputs, threading the accumulator. -/
def walkList (s : SlotState) : List InputNode → SlotState
  | [] => s
  | .node nm idv lb hp ty ch :: rest =>
      walkList (walkList (stepNode s (.node nm idv lb hp ty ch)) ch) rest

/-- `find_input_slots_for_reads` of src/galaxy.py lines 68-108. -/
def find_input_slots_for_reads (inputs : List InputNode) : SlotState :=
  walkList initSlots inputs

/-- Pre-order flattening of a schema forest: every node reachable by
following nested `inputs` lists, in visit order. -/
def flattenList : List InputNode → List InputNode
  | [] => []
  | .node nm idv lb hp ty ch :: rest =>
      InputNode.node nm idv lb hp ty ch :: (flattenList ch ++ flattenList rest)

example : walkList initSlots [] = initSlots := by simp [walkList]

example :
    (walkList initSlots
      [.node (some "fwd_reads_x") none none none "section"
        [.node (some "fastq_in") none none none "data" []]]).single
      = some "fastq_in" := by
  simp only [walkList]
  rfl

example :
    (walkList initSlots
      [.node (some "fwd_reads_x") none none none "section"
        [.node (some "fastq_in") none none none "data" []]]).explicit_fwd
      = some "fwd_reads_x" := by
  simp only [walkList]
  rfl

/-! ### Datasets and the two polling loops -/

/-- A history dataset as the script reads it: `id`, `name`, `file_ext`
(possibly absent), `state`, `deleted`. -/
structure Dataset where
  id : String
  name : String
  file_ext : Option String
  state : String
  deleted : Bool
deriving Repr, DecidableEq

/-- `s in ('ok', 'error', 'discarded')` from `wait_for_history_ready`. -/
def isTerminal (s : String) : Bool :=
  s == "ok" || s == "error" || s == "discarded"

/-- `all(s in ('ok','error','discarded') for s in states)`. -/
def allFinished (hist : List Dataset) : Bool :=
  hist.all (fun d => isTerminal d.state)

/-- Outcome of a polling loop run against a finite trace of poll results.
`exhausted` means the trace ended before the loop returned or timed out. -/
inductive WaitResult (α : Type) where
  | done (a : α)
  | timedOut
  | exhausted
deriving Repr, DecidableEq

/-- `wait_for_history_ready` (src/galaxy.py lines 23-33) over a finite trace:
each trace entry is the history contents seen by one loop iteration together
with the elapsed wall-clock time `time.time() - start` at that iteration's
timeout check. -/
def wait_for_history_ready (timeout : Nat) :
    List (List Dataset × Nat) → WaitResult (List Dataset)
  | [] => .exhausted
  | (hist, elapsed) :: rest =>
    if allFinished hist then .done hist
    else if timeout < elapsed then .timedOut
    else wait_for_history_ready timeout rest

/-- The per-dataset extension test of `poll_history_for_dataset_with_ext`:
`ext in exts or any(name.lower().endswith('.' + e) for e in exts)`. -/
def dsExtHit (exts : List String) (ds : Dataset) : Bool :=
  let ext := pyOrS ds.file_ext ""
  exts.contains ext || exts.any (fun e => strEndsWith (strLower ds.name) ("." ++ e))

/-- Whether one dataset makes `poll_history_for_dataset_with_ext` return:
the extension test plus the optional `name_contains` filter (an empty-string
filter is falsy in Python and so is not applied). -/
def dsMatch (exts : List String) (name_contains : Option String) (ds : Dataset) : Bool :=
  if dsExtHit exts ds then
    match name_contains with
    | some f => if f == "" then true else strContains (strLower ds.name) (strLower f)
    | none => true
  else false

/-- `poll_history_for_dataset_with_ext` (src/galaxy.py lines 35-52) over a
finite trace of poll results. -/
def poll_history_for_dataset_with_ext (exts : List String)
    (name_contains : Option String) (timeout : Nat) :
    List (List Dataset × Nat) → WaitResult Dataset
  | [] => .exhausted
  | (contents, elapsed) :: rest =>
    match contents.find? (dsMatch exts name_contains) with
    | some ds => .done ds
    | none =>
      if timeout < elapsed then .timedOut
      else poll_history_for_dataset_with_ext exts name_contains timeout rest

/-- The default extension tuple of `poll_history_for_dataset_with_ext`,
also passed explicitly at both call sites in `main`. -/
def defaultExts : List String :=
  ["fasta", "fa", "fna", "fasta.gz", "fa.gz", "fna.gz"]

/-! ### Tool selector (`find_tool_by_keywords`, lines 54-66) -/

/-- The `tool_map` dict of `find_tool_by_keywords`: keyed by tool id, a
duplicate id keeps its first position and takes the last name. -/
def buildToolMap (tools : List (String × String)) : List (String × String) :=
  tools.foldl (fun m t => pyDictInsert m t.1 t.2) []

/-- The keyword test of `find_tool_by_keywords`:
`kw.lower() in tid.lower() or kw.lower() in (name or '').lower()`. -/
def kwHit (kw : String) (p : String × String) : Bool :=
  strContains (strLower p.1) (strLower kw) || strContains (strLower p.2) (strLower kw)

/-- `find_tool_by_keywords` (src/galaxy.py lines 54-66): catalog entries are
`(id, name)` pairs in `gi.tools.get_tools()` order. -/
def find_tool_by_keywords (tools : List (String × String)) (keywords : List String) :
    Option String :=
  let tool_map := buildToolMap tools
  keywords.findSome? (fun kw =>
    tool_map.findSome? (fun p => if kwHit kw p then some p.1 else none))

/-! ### Upload-name resolution in `main` (lines 155-169) -/

/-- The `name_to_dsid` dict of `main`: for each non-deleted dataset in history
order, every uploaded basename contained (case-sensitively) in the dataset's
name is mapped to that dataset's id. -/
def buildNameToDsid (contents : List Dataset) (uploaded : List String) :
    List (String × String) :=
  contents.foldl (fun m ds =>
    if ds.deleted then m
    else uploaded.foldl
      (fun m2 up => if strContains ds.name up then pyDictInsert m2 up ds.id else m2) m) []

/-- The abort test at line 167: `if len(name_to_dsid) == 0`. -/
def uploadsResolveAbort (m : List (String × String)) : Bool :=
  m.isEmpty

/-! ### Parameter mappings and the input-building step of `main` (lines 182-310) -/

/-- A value in a tool-run parameter mapping: a reference
`{'src': src, 'id': id}` (the id is whatever optional string the script put
there), a string literal, or a boolean flag. -/
inductive ParamValue where
  | ref (src : String) (id : Option String)
  | str (s : String)
  | bool (b : Bool)
deriving Repr, DecidableEq

/-- One element of a `create_dataset_collection` description. -/
structure CollElement where
  name : String
  src : String
  id : Option String
deriving Repr, DecidableEq

/-- A `create_dataset_collection` description (the paired one has no
`collection_type` key, the single-end `reads_list` one has `"list"`). -/
structure CollDesc where
  name : String
  collection_type : Option String
  elements : List CollElement
deriving Repr, DecidableEq

/-- `find_collection_input` (src/galaxy.py lines 241-257), with the
`preferred` accumulator made explicit; fresh recursive calls start with
`preferred = None`. -/
def fciGo (pref : Option String) : List InputNode → Option String
  | [] => pref
  | .node nm idv lb hp ty ch :: rest =>
    let name := pyOrOpt nm idv
    let label := strLower (pyOrS lb (pyOrS hp ""))
    let combined := strLower (optStr name) ++ " " ++ label
    if ty == "data_collection" then
      if ["read", "fastq", "sequence", "rna"].any (fun k => strContains combined k) then
        name
      else
        let pref2 := if pref = none then name else pref
        let r := fciGo none ch
        if truthyO r then r else fciGo pref2 rest
    else
      let r := fciGo none ch
      if truthyO r then r else fciGo pref rest

def find_collection_input (l : List InputNode) : Option String :=
  fciGo none l

/-- `find_any_data_input` (src/galaxy.py lines 272-280). -/
def find_any_data_input : List InputNode → Option String
  | [] => none
  | .node nm idv _ _ ty ch :: rest =>
    if ty == "data" || ty == "data_input" then pyOrOpt nm idv
    else
      let r := find_any_data_input ch
      if truthyO r then r else find_any_data_input rest

/-- Outcome of the `tool_inputs` construction (src/galaxy.py lines 182-287):
either the run proceeds with a mapping (plus the collection descriptions the
script created on the way), or the process exits with a printed error, or the
script crashes on a raw `name_to_dsid[...]` access with a missing key. -/
inductive BuildOutcome where
  | proceed (mapping : List (String × ParamValue)) (colls : List CollDesc)
  | exited (msg : String)
  | keyError
deriving Repr, DecidableEq

/-- The `tool_inputs` construction of `main` (src/galaxy.py lines 182-287).
`tool_id` is the selected tool, `tool_info` its input schema, `n2d` the
resolved `name_to_dsid` dict, `b1`/`b2` the basenames of `--fastq1`/`--fastq2`
and `coll_id` the id the service would return from
`create_dataset_collection`. -/
def buildToolInputs (tool_id : String) (tool_info : List InputNode)
    (n2d : List (String × String)) (b1 : String) (b2 : Option String)
    (coll_id : String) : BuildOutcome :=
  let read_slots := find_input_slots_for_reads tool_info
  let dsid := pyGet n2d b1
  if strContains (strLower tool_id) "rnaspades" then
    match b2 with
    | some bb =>
      let right_ds := pyGet n2d bb
      if truthyO right_ds = false then
        .exited "ERROR: Cannot find dataset id for fastq2"
      else
        .proceed
          [("libraries_0|files_0|file_type|type", .str "separate"),
           ("libraries_0|files_0|file_type|fwd_reads", .ref "hda" dsid),
           ("libraries_0|files_0|file_type|rev_reads", .ref "hda" right_ds)] []
    | none =>
      .proceed
        [("libraries_0|files_0|file_type|type", .str "unpaired"),
         ("libraries_0|files_0|file_type|unpaired_reads", .ref "hda" dsid)] []
  else
    match b2 with
    | some bb =>
      let fwd_slot := pyOrOpt read_slots.explicit_fwd read_slots.left
      let rev_slot := pyOrOpt read_slots.explicit_rev read_slots.right
      if truthyO fwd_slot && truthyO rev_slot then
        let left_ds := pyGet n2d b1
        let right_ds := pyGet n2d bb
        if truthyO left_ds = false || truthyO right_ds = false then
          .exited "ERROR: Cannot find dataset ids for paired files."
        else
          .proceed
            (pyDictInsert (pyDictInsert [] (optStr fwd_slot) (.ref "hda" left_ds))
              (optStr rev_slot) (.ref "hda" right_ds)) []
      else
        let single_slot := read_slots.single
        if truthyO single_slot then
          match pyGet n2d b1, pyGet n2d bb with
          | some d1, some d2 =>
            .proceed [(optStr single_slot, .ref "hdca" (some coll_id))]
              [⟨"paired_collection_demo", none,
                [⟨b1, "hda", some d1⟩, ⟨bb, "hda", some d2⟩]⟩]
          | _, _ => .keyError
        else
          .exited "ERROR: Could not find appropriate read input slots for paired-end input."
    | none =>
      let explicit_single := read_slots.explicit_single
      let single_slot := pyOrOpt explicit_single read_slots.single
      if truthyO single_slot then
        .proceed [(optStr single_slot, .ref "hda" dsid)] []
      else
        let collection_slot := find_collection_input tool_info
        if truthyO collection_slot then
          .proceed [(optStr collection_slot, .ref "hdca" (some coll_id))]
            [⟨"reads_list", some "list", [⟨b1, "hda", dsid⟩]⟩]
        else
          let any_slot := find_any_data_input tool_info
          if truthyO any_slot then
            .proceed [(optStr any_slot, .ref "hda" dsid)] []
          else
            .exited "ERROR: Could not find any suitable data input on tool."

/-! ### Fallback conversion branch (lines 289-310) -/

def conv_candidates : List String :=
  ["toolshed.g2.bx.psu.edu/repos/devteam/fastq_to_fasta/fastq_to_fasta",
   "seqtk_seq", "seqtk_seq_v2"]

/-- The `conv_inputs` dict built speculatively at lines 302-308. -/
def conv_inputs (dsid : Option String) : List (String × ParamValue) :=
  let m := ["input_fastq", "input_file", "fastq", "input"].foldl
    (fun m k => pyDictInsert m k (.ref "hda" dsid)) []
  ["to_fasta", "fasta_output", "convert_to_fasta"].foldl
    (fun m k => pyDictInsert m k (.bool true)) m

inductive ConvOutcome where
  | run (tool : String) (mapping : List (String × ParamValue))
  | exitedNoTool
deriving Repr, DecidableEq

/-- The conversion branch body (src/galaxy.py lines 291-310): select a
conversion tool, abort if none, else run it with `conv_inputs`. -/
def conversionBranch (tools : List (String × String)) (dsid : Option String) :
    ConvOutcome :=
  let conv_tool := find_tool_by_keywords tools conv_candidates
  if truthyO conv_tool then .run (optStr conv_tool) (conv_inputs dsid)
  else .exitedNoTool

/-- The branch test at line 289: `if not tool_inputs`. -/
def entersConversion (mapping : List (String × ParamValue)) : Bool :=
  mapping.isEmpty

/-- Whether an empty `tool_inputs` mapping can survive the construction step,
i.e. whether the line-289 fallback branch is reachable. -/
def EmptyMappingReachable : Prop :=
  ∃ tool_id tool_info n2d b1 b2 coll_id colls,
    buildToolInputs tool_id tool_info n2d b1 b2 coll_id = .proceed [] colls

/-! ### The wait-primitive call sites of `main`

`mainWaitCalls w conversion` records, in program order, the callee, poll
interval and timeout of each wait-primitive invocation `main` makes with
`--wait-timeout w`: line 153 (upload settle), then on the conversion branch
lines 313 and 315-316, on the assembler branch lines 322 and 325-326. -/

structure WaitCall where
  callee : String
  interval : Nat
  timeout : Nat
deriving Repr, DecidableEq

def mainWaitCalls (w : Nat) (conversion : Bool) : List WaitCall :=
  ⟨"wait_for_history_ready", 3, w / 4⟩ ::
    (if conversion then
      [⟨"wait_for_history_ready", 5, w / 2⟩,
       ⟨"poll_history_for_dataset_with_ext", 5, 900⟩]
    else
      [⟨"wait_for_history_ready", 10, w⟩,
       ⟨"poll_history_for_dataset_with_ext", 5, 1200⟩])

/-- The timeouts of the output-appear polling calls among a call list. -/
def pollTimeouts (calls : List WaitCall) : List Nat :=
  (calls.filter (fun c => c.callee == "poll_history_for_dataset_with_ext")).map
    (fun c => c.timeout)

/-- The timeouts of the settle (`wait_for_history_ready`) calls. -/
def settleTimeouts (calls : List WaitCall) : List Nat :=
  (calls.filter (fun c => c.callee == "wait_for_history_ready")).map
    (fun c => c.timeout)

/-! ### Slot-assignment predicates

Named forms of the conditions tested by one `walk_inputs` iteration, used to
state which field each visited node touches. -/

def leftAny (n : InputNode) : Bool :=
  leftTriggers.any (fun x => strContains (combinedText n) x)

def rightAny (n : InputNode) : Bool :=
  rightTriggers.any (fun x => strContains (combinedText n) x)

def singleText (n : InputNode) : Bool :=
  strContains (combinedText n) "reads" || strContains (combinedText n) "fastq"
    || strContains (combinedText n) "sequence"

/-- The node writes the `left` slot. -/
def leftHit (n : InputNode) : Bool :=
  isDataType (nodeType n) && leftAny n

/-- The node writes the `right` slot (the `elif` chain excludes left hits). -/
def rightHit (n : InputNode) : Bool :=
  isDataType (nodeType n) && !leftAny n && rightAny n

/-- The node is eligible to write the `single` slot. -/
def singleHit (n : InputNode) : Bool :=
  isDataType (nodeType n) && !leftAny n && !rightAny n && singleText n

/-- The node writes `explicit_single` (a pure name grep, type ignored). -/
def singleKeyHit (n : InputNode) : Bool :=
  strContains (strLower (nodeName n)) "single_reads"

/-- The node writes `explicit_fwd` (a pure name grep, type ignored). -/
def fwdKeyHit (n : InputNode) : Bool :=
  strContains (strLower (nodeName n)) "fwd_reads"
    || strContains (strLower (nodeName n)) "forward_reads"

/-- The node writes `explicit_rev` (a pure name grep, type ignored). -/
def revKeyHit (n : InputNode) : Bool :=
  strContains (strLower (nodeName n)) "rev_reads"
    || strContains (strLower (nodeName n)) "reverse_reads"

/-- One `walk_inputs` iteration writes `explicit_single` exactly on a
`single_reads` name hit, regardless of the node's type. -/
theorem stepNode_explicit_single (s : SlotState) (n : InputNode) :
    (stepNode s n).explicit_single =
      if singleKeyHit n then some (nodeName n) else s.explicit_single := by
  simp only [stepNode, singleKeyHit, apply_ite SlotState.explicit_single, ite_self]

/-- One `walk_inputs` iteration writes `explicit_fwd` exactly on a
`fwd_reads`/`forward_reads` name hit, regardless of the node's type. -/
theorem stepNode_explicit_fwd (s : SlotState) (n : InputNode) :
    (stepNode s n).explicit_fwd =
      if fwdKeyHit n then some (nodeName n) else s.explicit_fwd := by
  simp only [stepNode, fwdKeyHit, apply_ite SlotState.explicit_fwd, ite_self]

/-- One `walk_inputs` iteration writes `explicit_rev` exactly on a
`rev_reads`/`reverse_reads` name hit, regardless of the node's type. -/
theorem stepNode_explicit_rev (s : SlotState) (n : InputNode) :
    (stepNode s n).explicit_rev =
      if revKeyHit n then some (nodeName n) else s.explicit_rev := by
  simp only [stepNode, revKeyHit, apply_ite SlotState.explicit_rev, ite_self]

/-- One `walk_inputs` iteration overwrites `left` exactly on a left hit. -/
theorem stepNode_left (s : SlotState) (n : InputNode) :
    (stepNode s n).left = if leftHit n then some (nodeName n) else s.left := by
  simp only [stepNode, apply_ite SlotState.left, ite_self]
  cases hD : isDataType (nodeType n) <;> cases hE : leftAny n <;>
    simp_all [leftHit, leftAny]

/-- One `walk_inputs` iteration overwrites `right` exactly on a right hit. -/
theorem stepNode_right (s : SlotState) (n : InputNode) :
    (stepNode s n).right = if rightHit n then some (nodeName n) else s.right := by
  simp only [stepNode, apply_ite SlotState.right, ite_self, rightHit, leftAny, rightAny]
  rcases Bool.eq_false_or_eq_true (isDataType (nodeType n)) with hD | hD <;>
  rcases Bool.eq_false_or_eq_true
    (leftTriggers.any fun x => strContains (combinedText n) x) with hE | hE <;>
  rcases Bool.eq_false_or_eq_true
    (rightTriggers.any fun x => strContains (combinedText n) x) with hF | hF <;>
  simp only [hD, hE, hF] <;> rfl

/-- One `walk_inputs` iteration writes `single` only when it is still unset. -/
theorem stepNode_single (s : SlotState) (n : InputNode) :
    (stepNode s n).single =
      if singleHit n then
        (if s.single = none then some (nodeName n) else s.single)
      else s.single := by
  simp only [stepNode, apply_ite SlotState.single, ite_self, singleHit, leftAny,
    rightAny, singleText]
  rcases Bool.eq_false_or_eq_true (isDataType (nodeType n)) with hD | hD <;>
  rcases Bool.eq_false_or_eq_true
    (leftTriggers.any fun x => strContains (combinedText n) x) with hE | hE <;>
  rcases Bool.eq_false_or_eq_true
    (rightTriggers.any fun x => strContains (combinedText n) x) with hF | hF <;>
  rcases Bool.eq_false_or_eq_true
    (strContains (combinedText n) "reads" || strContains (combinedText n) "fastq"
      || strContains (combinedText n) "sequence") with hG | hG <;>
  simp only [hD, hE, hF, hG] <;> rfl

/-- The traversal is exactly a left fold of the per-node update over the
pre-order flattening: every node reachable through nested `inputs` lists is
visited once, in order, regardless of its own type. -/
theorem walkList_eq_foldl (s : SlotState) (l : List InputNode) :
    walkList s l = (flattenList l).foldl stepNode s := by
  induction l using flattenList.induct generalizing s with
  | case1 => simp [walkList, flattenList]
  | case2 nm idv lb hp ty ch rest ih1 ih2 =>
    simp [walkList, flattenList, List.foldl_append, ih1, ih2]

theorem find?_append {α : Type} (p : α → Bool) (l1 l2 : List α) :
    (l1 ++ l2).find? p = ((l1.find? p).or (l2.find? p)) := by
  induction l1 with
  | nil => simp
  | cons a l1 ih =>
    rcases Bool.eq_false_or_eq_true (p a) with h | h
    · simp [List.find?, h]
    · simp [List.find?, h, ih]

/-- Generic last-match lemma: a field that every iteration overwrites on a
hit and leaves alone otherwise ends up holding the name of the last hit in
the visit list. -/
theorem foldl_last_match (f : SlotState → Option String) (hit : InputNode → Bool)
    (hstep : ∀ s n, f (stepNode s n) = if hit n then some (nodeName n) else f s)
    (l : List InputNode) (s : SlotState) :
    f (l.foldl stepNode s) =
      match l.reverse.find? hit with
      | some m => some (nodeName m)
      | none => f s := by
  induction l generalizing s with
  | nil => simp
  | cons n l ih =>
    simp only [List.foldl_cons, ih, List.reverse_cons, find?_append]
    rcases h : l.reverse.find? hit with _ | m
    · rcases Bool.eq_false_or_eq_true (hit n) with hn | hn <;>
        simp [h, List.find?, hn, hstep]
    · simp [h]

/-- First-match lemma for the `single` slot: once set it is never changed,
and from an unset state it picks up the first eligible node. -/
theorem foldl_single_first_match (l : List InputNode) (s : SlotState) :
    (l.foldl stepNode s).single =
      if s.single = none then
        (match l.find? singleHit with
         | some m => some (nodeName m)
         | none => none)
      else s.single := by
  induction l generalizing s with
  | nil => rcases hs : s.single with _ | x <;> simp [hs]
  | cons n l ih =>
    simp only [List.foldl_cons, ih, stepNode_single]
    rcases Bool.eq_false_or_eq_true (singleHit n) with hn | hn <;>
      rcases hs : s.single with _ | x <;>
      simp [List.find?, hn, hs]

/-- C2 (amended): over the pre-order visit list, `single` holds the FIRST
eligible match and is never overwritten once set; `left` and `right` hold the
LAST matching eligible node (not the first, contrary to the original claim);
the three explicit keys hold the LAST node whose lowercased name contains the
corresponding literal substring, regardless of node type. -/
theorem C2_slot_assignment (l : List InputNode) (s : SlotState) :
    ((find_input_slots_for_reads l).single =
      (match (flattenList l).find? singleHit with
       | some m => some (nodeName m)
       | none => none)) ∧
    ((find_input_slots_for_reads l).left =
      (match (flattenList l).reverse.find? leftHit with
       | some m => some (nodeName m)
       | none => none)) ∧
    ((find_input_slots_for_reads l).right =
      (match (flattenList l).reverse.find? rightHit with
       | some m => some (nodeName m)
       | none => none)) ∧
    ((find_input_slots_for_reads l).explicit_single =
      (match (flattenList l).reverse.find? singleKeyHit with
       | some m => some (nodeName m)
       | none => none)) ∧
    ((find_input_slots_for_reads l).explicit_fwd =
      (match (flattenList l).reverse.find? fwdKeyHit with
       | some m => some (nodeName m)
       | none => none)) ∧
    ((find_input_slots_for_reads l).explicit_rev =
      (match (flattenList l).reverse.find? revKeyHit with
       | some m => some (nodeName m)
       | none => none)) ∧
    (s.single ≠ none → (walkList s l).single = s.single) := by
  have hbase : find_input_slots_for_reads l = (flattenList l).foldl stepNode initSlots :=
    walkList_eq_foldl initSlots l
  refine ⟨?_, ?_, ?_, ?_, ?_, ?_, ?_⟩
  · rw [hbase, foldl_single_first_match]; rfl
  · rw [hbase, foldl_last_match SlotState.left leftHit stepNode_left]; rfl
  · rw [hbase, foldl_last_match SlotState.right rightHit stepNode_right]; rfl
  · rw [hbase, foldl_last_match SlotState.explicit_single singleKeyHit stepNode_explicit_single]; rfl
  · rw [hbase, foldl_last_match SlotState.explicit_fwd fwdKeyHit stepNode_explicit_fwd]; rfl
  · rw [hbase, foldl_last_match SlotState.explicit_rev revKeyHit stepNode_explicit_rev]; rfl
  · intro h
    rw [walkList_eq_foldl, foldl_single_first_match, if_neg h]

def cLeftA : InputNode := .node (some "left_a") none none none "data" []

def cLeftB : InputNode := .node (some "left_b") none none none "data" []

/-- C2 counterexample: two eligible nodes both matching the left triggers; the
`left` slot ends up holding the SECOND node's name, refuting the claimed
first-match-wins semantics for `left`. -/
theorem C2_counterexample :
    (find_input_slots_for_reads [cLeftA]).left = some "left_a" ∧
    (find_input_slots_for_reads [cLeftA, cLeftB]).left = some "left_b" ∧
    (some "left_b" : Option String) ≠ some "left_a" := by
  refine ⟨?_, ?_, by decide⟩ <;>
    (simp only [find_input_slots_for_reads, walkList, cLeftA, cLeftB]; rfl)

def cSetState : SlotState := ⟨some "kept", none, none, none, none, none⟩

def cFastqNode : InputNode := .node (some "fastq_in") none none none "data" []

/-- C2 witness: feeding a further eligible single node to a state whose
`single` slot is already set leaves the slot unchanged. -/
theorem C2_slot_assignment_witness :
    (walkList cSetState [cFastqNode]).single = some "kept" :=
  (C2_slot_assignment [cFastqNode] cSetState).2.2.2.2.2.2 (by simp [cSetState])

/-- C3: the traversal of `find_input_slots_for_reads` is a fold over the
pre-order flattening (every node reachable via nested `inputs` lists is
visited, regardless of its own type); a node whose type is not one of
`data`/`data_collection`/`data_input` never touches the left/right/single
slots; explicit-key detection fires on any node, container nodes included. -/
theorem C3_traversal (l : List InputNode) (s : SlotState) (n : InputNode)
    (hty : isDataType (nodeType n) = false) :
    (find_input_slots_for_reads l = (flattenList l).foldl stepNode initSlots) ∧
    ((stepNode s n).left = s.left ∧ (stepNode s n).right = s.right ∧
      (stepNode s n).single = s.single) ∧
    ((stepNode s n).explicit_single =
        if singleKeyHit n then some (nodeName n) else s.explicit_single) ∧
    ((stepNode s n).explicit_fwd =
        if fwdKeyHit n then some (nodeName n) else s.explicit_fwd) ∧
    ((stepNode s n).explicit_rev =
        if revKeyHit n then some (nodeName n) else s.explicit_rev) := by
  refine ⟨walkList_eq_foldl initSlots l, ⟨?_, ?_, ?_⟩,
    stepNode_explicit_single s n, stepNode_explicit_fwd s n, stepNode_explicit_rev s n⟩
  · simp [stepNode_left, leftHit, hty]
  · simp [stepNode_right, rightHit, hty]
  · simp [stepNode_single, singleHit, hty]

def cCondNode : InputNode := .node (some "fwd_reads_sel") none none none "conditional" []

/-- C3 witness: a `conditional`-typed node named `fwd_reads_sel` is not a
data-typed node, leaves left/right/single untouched, and still sets the
explicit forward key. -/
theorem C3_traversal_witness :
    isDataType (nodeType cCondNode) = false ∧
    (stepNode initSlots cCondNode).left = initSlots.left ∧
    (stepNode initSlots cCondNode).explicit_fwd =
      (if fwdKeyHit cCondNode then some (nodeName cCondNode)
       else initSlots.explicit_fwd) :=
  ⟨rfl, (C3_traversal [] initSlots cCondNode rfl).2.1.1,
    (C3_traversal [] initSlots cCondNode rfl).2.2.2.1⟩

/-! ### Wait-loop characterizations -/

theorem wait_done_iff (timeout : Nat) (polls : List (List Dataset × Nat))
    (hist : List Dataset) :
    wait_for_history_ready timeout polls = .done hist ↔
      ∃ pre p post, polls = pre ++ p :: post ∧
        (∀ q ∈ pre, allFinished q.1 = false ∧ q.2 ≤ timeout) ∧
        allFinished p.1 = true ∧ hist = p.1 := by
  induction polls generalizing hist with
  | nil =>
    constructor
    · intro h; simp [wait_for_history_ready] at h
    · rintro ⟨pre, p, post, h, -⟩
      rcases pre with - | ⟨q, pre⟩ <;> simp at h
  | cons hd rest ih =>
    rcases hd with ⟨c, e⟩
    rcases Bool.eq_false_or_eq_true (allFinished c) with hf | hf
    · constructor
      · intro h
        simp only [wait_for_history_ready, hf] at h
        rw [if_pos (by simp)] at h
        injection h with h2
        subst h2
        exact ⟨[], (c, e), rest, rfl, by simp, hf, rfl⟩
      · rintro ⟨pre, p, post, hEq, hPre, hP, hH⟩
        rcases pre with - | ⟨q, pre⟩
        · simp only [List.nil_append] at hEq
          injection hEq with h1 h2
          subst h1
          subst hH
          simp only [wait_for_history_ready, hf]
          rw [if_pos (by simp)]
        · simp only [List.cons_append] at hEq
          injection hEq with h1 h2
          have hq := (hPre q (by simp)).1
          rw [← h1] at hq
          simp only [] at hq
          rw [hq] at hf
          cases hf
    · rcases Nat.lt_or_ge timeout e with he | he
      · constructor
        · intro h
          simp only [wait_for_history_ready, hf] at h
          rw [if_neg (by simp), if_pos he] at h
          cases h
        · rintro ⟨pre, p, post, hEq, hPre, hP, -⟩
          rcases pre with - | ⟨q, pre⟩
          · simp only [List.nil_append] at hEq
            injection hEq with h1 h2
            rw [← h1] at hP
            simp only [] at hP
            rw [hP] at hf
            cases hf
          · simp only [List.cons_append] at hEq
            injection hEq with h1 h2
            have hq := (hPre q (by simp)).2
            rw [← h1] at hq
            simp only [] at hq
            omega
      · have hnl : ¬ timeout < e := Nat.not_lt.mpr he
        constructor
        · intro h
          simp only [wait_for_history_ready, hf] at h
          rw [if_neg (by simp), if_neg hnl] at h
          obtain ⟨pre, p, post, hEq, hPre, hP, hH⟩ := (ih hist).mp h
          refine ⟨(c, e) :: pre, p, post, by simp [hEq], ?_, hP, hH⟩
          intro q hq
          rcases List.mem_cons.mp hq with rfl | hq2
          · exact ⟨hf, he⟩
          · exact hPre q hq2
        · rintro ⟨pre, p, post, hEq, hPre, hP, hH⟩
          rcases pre with - | ⟨q, pre⟩
          · simp only [List.nil_append] at hEq
            injection hEq with h1 h2
            rw [← h1] at hP
            simp only [] at hP
            rw [hP] at hf
            cases hf
          · simp only [List.cons_append] at hEq
            injection hEq with h1 h2
            simp only [wait_for_history_ready, hf]
            rw [if_neg (by simp), if_neg hnl]
            exact (ih hist).mpr ⟨pre, p, post, h2,
              fun r hr => hPre r (by simp [hr]), hP, hH⟩

theorem wait_timedOut_iff (timeout : Nat) (polls : List (List Dataset × Nat)) :
    wait_for_history_ready timeout polls = .timedOut ↔
      ∃ pre p post, polls = pre ++ p :: post ∧
        (∀ q ∈ pre, allFinished q.1 = false ∧ q.2 ≤ timeout) ∧
        allFinished p.1 = false ∧ timeout < p.2 := by
  induction polls with
  | nil =>
    constructor
    · intro h; simp [wait_for_history_ready] at h
    · rintro ⟨pre, p, post, h, -⟩
      rcases pre with - | ⟨q, pre⟩ <;> simp at h
  | cons hd rest ih =>
    rcases hd with ⟨c, e⟩
    rcases Bool.eq_false_or_eq_true (allFinished c) with hf | hf
    · constructor
      · intro h
        simp only [wait_for_history_ready, hf] at h
        rw [if_pos (by simp)] at h
        cases h
      · rintro ⟨pre, p, post, hEq, hPre, hP, -⟩
        rcases pre with - | ⟨q, pre⟩
        · simp only [List.nil_append] at hEq
          injection hEq with h1 h2
          rw [← h1] at hP
          simp only [] at hP
          rw [hP] at hf
          cases hf
        · simp only [List.cons_append] at hEq
          injection hEq with h1 h2
          have hq := (hPre q (by simp)).1
          rw [← h1] at hq
          simp only [] at hq
          rw [hq] at hf
          cases hf
    · rcases Nat.lt_or_ge timeout e with he | he
      · constructor
        · intro h
          exact ⟨[], (c, e), rest, rfl, by simp, hf, he⟩
        · intro h
          simp only [wait_for_history_ready, hf]
          rw [if_neg (by simp), if_pos he]
      · have hnl : ¬ timeout < e := Nat.not_lt.mpr he
        constructor
        · intro h
          simp only [wait_for_history_ready, hf] at h
          rw [if_neg (by simp), if_neg hnl] at h
          obtain ⟨pre, p, post, hEq, hPre, hP, hT⟩ := ih.mp h
          refine ⟨(c, e) :: pre, p, post, by simp [hEq], ?_, hP, hT⟩
          intro q hq
          rcases List.mem_cons.mp hq with rfl | hq2
          · exact ⟨hf, he⟩
          · exact hPre q hq2
        · rintro ⟨pre, p, post, hEq, hPre, hP, hT⟩
          rcases pre with - | ⟨q, pre⟩
          · simp only [List.nil_append] at hEq
            injection hEq with h1 h2
            rw [← h1] at hP hT
            simp only [] at hP hT
            omega
          · simp only [List.cons_append] at hEq
            injection hEq with h1 h2
            simp only [wait_for_history_ready, hf]
            rw [if_neg (by simp), if_neg hnl]
            exact ih.mpr ⟨pre, p, post, h2,
              fun r hr => hPre r (by simp [hr]), hP, hT⟩

/-- C4: `wait_for_history_ready` returns successfully exactly at the first
poll at which every item's state is in ok/error/discarded (error and
discarded count as finished), and raises a timeout failure only when that
condition failed at a poll whose elapsed time exceeds the deadline; every
earlier poll was unfinished and within the deadline. -/
theorem C4_wait_terminal (timeout : Nat) (polls : List (List Dataset × Nat))
    (hist : List Dataset) :
    (wait_for_history_ready timeout polls = .done hist ↔
      ∃ pre p post, polls = pre ++ p :: post ∧
        (∀ q ∈ pre, allFinished q.1 = false ∧ q.2 ≤ timeout) ∧
        allFinished p.1 = true ∧ hist = p.1) ∧
    (wait_for_history_ready timeout polls = .timedOut ↔
      ∃ pre p post, polls = pre ++ p :: post ∧
        (∀ q ∈ pre, allFinished q.1 = false ∧ q.2 ≤ timeout) ∧
        allFinished p.1 = false ∧ timeout < p.2) ∧
    isTerminal "ok" = true ∧ isTerminal "error" = true ∧
    isTerminal "discarded" = true ∧ isTerminal "running" = false :=
  ⟨wait_done_iff timeout polls hist, wait_timedOut_iff timeout polls,
    rfl, rfl, rfl, rfl⟩

def cRunDs : Dataset := ⟨"d1", "u.fastq", none, "running", false⟩

def cOkDs : Dataset := ⟨"d1", "u.fastq", none, "ok", false⟩

def cPolls : List (List Dataset × Nat) := [([cRunDs], 0), ([cOkDs], 5)]

/-- C4 witness: a run that sees a running dataset and then an ok dataset
returns exactly at the second poll. -/
theorem C4_wait_terminal_witness :
    wait_for_history_ready 10 cPolls = .done [cOkDs] :=
  (C4_wait_terminal 10 cPolls [cOkDs]).1.mpr
    ⟨[([cRunDs], 0)], ([cOkDs], 5), [], rfl, by decide, by decide, rfl⟩

/-! ### Output-poll characterization -/

theorem find?_eq_some_split {α : Type} (p : α → Bool) (l : List α) (a : α)
    (h : l.find? p = some a) :
    ∃ pre post, l = pre ++ a :: post ∧ (∀ x ∈ pre, p x = false) ∧ p a = true := by
  induction l with
  | nil => simp at h
  | cons b l ih =>
    rcases Bool.eq_false_or_eq_true (p b) with hb | hb
    · rw [List.find?_cons_of_pos _ hb] at h
      injection h with h2
      subst h2
      exact ⟨[], l, rfl, by simp, hb⟩
    · rw [List.find?_cons_of_neg _ (by simp [hb])] at h
      obtain ⟨pre, post, hEq, hPre, hA⟩ := ih h
      refine ⟨b :: pre, post, by simp [hEq], ?_, hA⟩
      intro x hx
      rcases List.mem_cons.mp hx with rfl | hx2
      · exact hb
      · exact hPre x hx2

theorem poll_done_split (exts : List String) (nc : Option String) (timeout : Nat)
    (polls : List (List Dataset × Nat)) (ds : Dataset)
    (h : poll_history_for_dataset_with_ext exts nc timeout polls = .done ds) :
    ∃ prePolls c e postPolls,
      polls = prePolls ++ (c, e) :: postPolls ∧
      (∀ q ∈ prePolls, q.1.find? (dsMatch exts nc) = none ∧ q.2 ≤ timeout) ∧
      (∃ pre post, c = pre ++ ds :: post ∧
        (∀ d ∈ pre, dsMatch exts nc d = false) ∧ dsMatch exts nc ds = true) := by
  induction polls with
  | nil => simp [poll_history_for_dataset_with_ext] at h
  | cons hd rest ih =>
    rcases hd with ⟨c, e⟩
    simp only [poll_history_for_dataset_with_ext] at h
    rcases hfind : c.find? (dsMatch exts nc) with _ | d
    · rw [hfind] at h
      rcases Nat.lt_or_ge timeout e with he | he
      · rw [if_pos he] at h; cases h
      · rw [if_neg (Nat.not_lt.mpr he)] at h
        obtain ⟨pp, c2, e2, post, hEq, hPre, hIn⟩ := ih h
        refine ⟨(c, e) :: pp, c2, e2, post, by simp [hEq], ?_, hIn⟩
        intro q hq
        rcases List.mem_cons.mp hq with rfl | hq2
        · exact ⟨hfind, he⟩
        · exact hPre q hq2
    · rw [hfind] at h
      injection h with h2
      subst h2
      exact ⟨[], c, e, rest, rfl, by simp, find?_eq_some_split _ _ _ hfind⟩

/-- The dataset of the spec's example: named `result.FASTA.gz` with an empty
extension field. -/
def gzDataset : Dataset := ⟨"d9", "result.FASTA.gz", some "", "ok", false⟩

/-- C9 (amended): a returned dataset is the first item of the first poll
whose extension field is exactly in the accepted set or whose lowercased
name ends with a dot followed by an accepted extension; `result.FASTA.gz`
with an empty extension field matches the code's default extension set
(through its `fasta.gz` entry) but does NOT match the set containing only
`fasta`, since `.fasta` is not a suffix of the name. -/
theorem C9_output_poll (exts : List String) (nc : Option String) (timeout : Nat)
    (polls : List (List Dataset × Nat)) (ds d2 : Dataset) :
    (poll_history_for_dataset_with_ext exts nc timeout polls = .done ds →
      ∃ prePolls c e postPolls,
        polls = prePolls ++ (c, e) :: postPolls ∧
        (∀ q ∈ prePolls, q.1.find? (dsMatch exts nc) = none ∧ q.2 ≤ timeout) ∧
        (∃ pre post, c = pre ++ ds :: post ∧
          (∀ d ∈ pre, dsMatch exts nc d = false) ∧ dsMatch exts nc ds = true)) ∧
    (dsExtHit exts d2 = true ↔
      (pyOrS d2.file_ext "" ∈ exts ∨
        ∃ x ∈ exts, strEndsWith (strLower d2.name) ("." ++ x) = true)) ∧
    (poll_history_for_dataset_with_ext defaultExts none 900 [([gzDataset], 0)]
      = .done gzDataset) ∧
    dsMatch ["fasta"] none gzDataset = false := by
  refine ⟨poll_done_split exts nc timeout polls ds, ?_, rfl, rfl⟩
  simp [dsExtHit, List.any_eq_true]

/-- C9 counterexample: with accepted extensions `{fasta}` only, the dataset
named `result.FASTA.gz` with empty extension field is NOT matched and is not
returned, contrary to the claim. -/
theorem C9_counterexample :
    poll_history_for_dataset_with_ext ["fasta"] none 900 [([gzDataset], 0)]
      = .exhausted ∧
    dsMatch ["fasta"] none gzDataset = false ∧
    gzDataset.name = "result.FASTA.gz" ∧ gzDataset.file_ext = some "" :=
  ⟨rfl, rfl, rfl, rfl⟩

/-- C9 witness: the name-suffix fallback fires for `result.FASTA.gz` under
the default extension set, and the dataset is returned at the first poll. -/
theorem C9_output_poll_witness :
    dsExtHit defaultExts gzDataset = true ∧
    poll_history_for_dataset_with_ext defaultExts none 900 [([gzDataset], 0)]
      = .done gzDataset :=
  ⟨(C9_output_poll defaultExts none 900 [([gzDataset], 0)] gzDataset gzDataset).2.1.mpr
      (Or.inr ⟨"fasta.gz", by decide, by decide⟩),
    (C9_output_poll defaultExts none 900 [([gzDataset], 0)] gzDataset gzDataset).2.2.1⟩

/-! ### Tool-selector characterization -/

theorem findSome?_if_eq_find? {α β : Type} (f : α → Bool) (g : α → β) (l : List α) :
    (l.findSome? (fun a => if f a then some (g a) else none)) = (l.find? f).map g := by
  induction l with
  | nil => simp
  | cons a l ih =>
    rcases Bool.eq_false_or_eq_true (f a) with hb | hb
    · simp [List.findSome?, List.find?, hb]
    · simp [List.findSome?, List.find?, hb, ih]

theorem pyDictInsert_append {β : Type} (m : List (String × β)) (k : String) (v : β)
    (h : ∀ p ∈ m, p.1 ≠ k) : pyDictInsert m k v = m ++ [(k, v)] := by
  unfold pyDictInsert
  rw [if_neg]
  simp only [List.any_eq_true, beq_iff_eq, not_exists]
  intro p
  rw [not_and]
  exact h p

theorem buildToolMap_aux (ts : List (String × String)) :
    ∀ (m : List (String × String)),
      (∀ t ∈ ts, ∀ p ∈ m, p.1 ≠ t.1) → (ts.map Prod.fst).Nodup →
      ts.foldl (fun m t => pyDictInsert m t.1 t.2) m = m ++ ts := by
  induction ts with
  | nil => intro m _ _; simp
  | cons t ts ih =>
    intro m hdisj hnd
    rw [List.map_cons, List.nodup_cons] at hnd
    simp only [List.foldl_cons]
    rw [pyDictInsert_append m t.1 t.2 (fun p hp => hdisj t (by simp) p hp)]
    rw [ih (m ++ [(t.1, t.2)]) ?_ hnd.2]
    · simp
    · intro u hu p hp
      rcases List.mem_append.mp hp with hp1 | hp2
      · exact hdisj u (by simp [hu]) p hp1
      · simp at hp2
        subst hp2
        intro hEq
        exact hnd.1 (by rw [hEq]; exact List.mem_map_of_mem Prod.fst hu)

theorem buildToolMap_of_nodup (ts : List (String × String))
    (h : (ts.map Prod.fst).Nodup) : buildToolMap ts = ts := by
  simpa [buildToolMap] using buildToolMap_aux ts [] (by simp) h

/-- C8 (amended): with an empty keyword list nothing is found; the keyword
list is scanned in caller order with keyword order taking precedence over
catalog order, each keyword being matched case-insensitively against id or
name of the entries of the id-keyed tool map; on catalogs with pairwise
distinct tool ids the tool map is the catalog itself (with duplicate ids the
map collapses them, which is where the original claim fails). -/
theorem C8_tool_selector (tools : List (String × String)) (kw : String)
    (rest : List String) :
    (find_tool_by_keywords tools [] = none) ∧
    (find_tool_by_keywords tools (kw :: rest) =
      match (buildToolMap tools).find? (kwHit kw) with
      | some p => some p.1
      | none => find_tool_by_keywords tools rest) ∧
    ((tools.map Prod.fst).Nodup → buildToolMap tools = tools) := by
  refine ⟨rfl, ?_, buildToolMap_of_nodup tools⟩
  simp only [find_tool_by_keywords, List.findSome?_cons]
  rw [findSome?_if_eq_find? (kwHit kw) (fun p => p.1) (buildToolMap tools)]
  rcases h : (buildToolMap tools).find? (kwHit kw) with _ | p <;> simp [h]

/-- C8 counterexample: a catalog with a duplicated tool id; the keyword
matches the first occurrence's display name, which the id-keyed tool map has
overwritten, so nothing is found even though a catalog entry matches. -/
theorem C8_counterexample :
    find_tool_by_keywords [("t1", "alpha"), ("t1", "beta")] ["alpha"] = none ∧
    kwHit "alpha" ("t1", "alpha") = true ∧
    find_tool_by_keywords [("t1", "alpha")] ["alpha"] = some "t1" :=
  ⟨rfl, rfl, rfl⟩

/-- C8 witness: on a duplicate-free catalog the tool map is the catalog. -/
theorem C8_tool_selector_witness :
    buildToolMap [("seqtk_seq", "Seqtk seq"), ("trinity", "Trinity")] =
      [("seqtk_seq", "Seqtk seq"), ("trinity", "Trinity")] :=
  (C8_tool_selector [("seqtk_seq", "Seqtk seq"), ("trinity", "Trinity")] "x" []).2.2
    (by decide)

/-! ### Upload-name resolution characterization -/

/-- Whether a Python dict has a key. -/
def keysMem {β : Type} (m : List (String × β)) (k : String) : Bool :=
  m.any (fun p => p.1 == k)

theorem pyGet_eq_none_iff {β : Type} (m : List (String × β)) (k : String) :
    pyGet m k = none ↔ keysMem m k = false := by
  unfold pyGet keysMem
  rcases h : m.find? (fun p => p.1 == k) with _ | p <;> simp only [h]
  · simp only [List.any_eq_false]
    constructor
    · intro _ p hp
      simpa using List.find?_eq_none.mp h p hp
    · intro _
      trivial
  · constructor
    · intro hc
      cases hc
    · intro hc
      exfalso
      have hmem := List.mem_of_find?_eq_some h
      have hpk := List.find?_some h
      rw [List.any_eq_false] at hc
      exact hc p hmem hpk

theorem keysMem_map_upd {β : Type} (m : List (String × β)) (k k2 : String) (v : β) :
    keysMem (m.map (fun p => if p.1 == k then (k, v) else p)) k2 =
      if k2 == k then keysMem m k else keysMem m k2 := by
  induction m with
  | nil => simp [keysMem]
  | cons p m ih =>
    simp only [keysMem, List.map_cons, List.any_cons] at ih ⊢
    rcases Bool.eq_false_or_eq_true (p.1 == k) with hp | hp <;>
    rcases Bool.eq_false_or_eq_true (k2 == k) with hk | hk <;>
      simp_all [beq_iff_eq]

theorem keysMem_pyDictInsert {β : Type} (m : List (String × β)) (k k2 : String) (v : β) :
    keysMem (pyDictInsert m k v) k2 = (k2 == k || keysMem m k2) := by
  unfold pyDictInsert
  rcases Bool.eq_false_or_eq_true (m.any (fun p => p.1 == k)) with hb | hb
  · rw [if_pos hb, keysMem_map_upd]
    rcases Bool.eq_false_or_eq_true (k2 == k) with hk | hk <;>
      simp_all [keysMem, beq_iff_eq]
  · rw [if_neg (by simp [hb])]
    unfold keysMem
    rw [List.any_append]
    by_cases hk : k2 = k
    · subst hk
      simp
    · have e1 : (k == k2) = false := by
        rw [beq_eq_false_iff_ne]
        exact fun hh => hk hh.symm
      have e2 : (k2 == k) = false := by
        rw [beq_eq_false_iff_ne]
        exact hk
      simp [e1, e2]

theorem inner_fold_keys (ds : Dataset) (uploaded : List String) :
    ∀ (m : List (String × String)) (k : String),
      keysMem (uploaded.foldl (fun m2 up =>
        if strContains ds.name up then pyDictInsert m2 up ds.id else m2) m) k =
      (keysMem m k || uploaded.any (fun up => up == k && strContains ds.name up)) := by
  induction uploaded with
  | nil => intro m k; simp
  | cons up us ih =>
    intro m k
    simp only [List.foldl_cons, List.any_cons]
    rcases Bool.eq_false_or_eq_true (strContains ds.name up) with hc | hc
    · rw [if_pos hc, ih, keysMem_pyDictInsert]
      by_cases hku : k = up
      · rcases Bool.eq_false_or_eq_true (keysMem m k) with hm | hm <;>
          simp [hku, hc, hm]
      · have e1 : (k == up) = false := by
          rw [beq_eq_false_iff_ne]
          exact hku
        have e2 : (up == k) = false := by
          rw [beq_eq_false_iff_ne]
          exact fun hh => hku hh.symm
        simp [e1, e2, hc]
    · rw [if_neg (by simp [hc]), ih]
      simp [hc]

theorem any_upload_split (ds : Dataset) (uploaded : List String) (k : String) :
    uploaded.any (fun up => up == k && strContains ds.name up) =
      (uploaded.any (fun up => up == k) && strContains ds.name k) := by
  induction uploaded with
  | nil => simp
  | cons up us ih =>
    simp only [List.any_cons, ih]
    by_cases hk : up = k
    · rcases Bool.eq_false_or_eq_true (strContains ds.name k) with hc | hc <;>
      rcases Bool.eq_false_or_eq_true (us.any (fun u => u == k)) with ha | ha <;>
        simp [hk, hc, ha]
    · have e1 : (up == k) = false := by
        rw [beq_eq_false_iff_ne]
        exact hk
      simp [e1]

theorem buildNameToDsid_keys_aux (uploaded : List String) (k : String)
    (contents : List Dataset) :
    ∀ (m : List (String × String)),
      keysMem (contents.foldl (fun m ds =>
        if ds.deleted then m
        else uploaded.foldl (fun m2 up =>
          if strContains ds.name up then pyDictInsert m2 up ds.id else m2) m) m) k =
      (keysMem m k ||
        (uploaded.any (fun up => up == k) &&
          contents.any (fun ds => !ds.deleted && strContains ds.name k))) := by
  induction contents with
  | nil => intro m; simp
  | cons ds cs ih =>
    intro m
    simp only [List.foldl_cons, List.any_cons]
    rcases Bool.eq_false_or_eq_true ds.deleted with hd | hd
    · rw [if_pos hd, ih]
      simp [hd]
    · rw [if_neg (by simp [hd]), ih, inner_fold_keys, any_upload_split]
      rcases Bool.eq_false_or_eq_true (uploaded.any (fun up => up == k)) with hu | hu <;>
      rcases Bool.eq_false_or_eq_true (strContains ds.name k) with hc | hc <;>
      rcases Bool.eq_false_or_eq_true
        (cs.any (fun d => !d.deleted && strContains d.name k)) with ha | ha <;>
        simp [hd, hu, hc, ha]

theorem buildNameToDsid_keys (contents : List Dataset) (uploaded : List String)
    (k : String) :
    keysMem (buildNameToDsid contents uploaded) k =
      (uploaded.any (fun up => up == k) &&
        contents.any (fun ds => !ds.deleted && strContains ds.name k)) := by
  unfold buildNameToDsid
  simpa using buildNameToDsid_keys_aux uploaded k contents []

/-- C5 (amended): uploaded filenames resolve by case-sensitive substring
containment of the basename in a non-deleted dataset's display name, and the
orchestrator aborts exactly when NO uploaded filename resolved at all (empty
dict); a partially resolved dict does not abort even though some required
filename is left unresolved. -/
theorem C5_upload_resolution (contents : List Dataset) (uploaded : List String)
    (k : String) :
    (pyGet (buildNameToDsid contents uploaded) k = none ↔
      ¬ (k ∈ uploaded ∧ ∃ ds ∈ contents, ds.deleted = false ∧
          strContains ds.name k = true)) ∧
    (uploadsResolveAbort (buildNameToDsid contents uploaded) = true ↔
      ∀ up ∈ uploaded, ∀ ds ∈ contents, ds.deleted = false →
        strContains ds.name up = false) ∧
    strContains "Sample_R1.fastq" "sample_R1.fastq" = false := by
  refine ⟨?_, ?_, rfl⟩
  · rw [pyGet_eq_none_iff, buildNameToDsid_keys, Bool.eq_false_iff]
    apply not_congr
    simp [List.any_eq_true, Bool.and_eq_true, Bool.not_eq_true', beq_iff_eq]
  · constructor
    · intro hE up hup ds hds hdel
      rcases Bool.eq_false_or_eq_true (strContains ds.name up) with hc | hc
      · exfalso
        have hk : keysMem (buildNameToDsid contents uploaded) up = true := by
          rw [buildNameToDsid_keys]
          simp only [Bool.and_eq_true]
          exact ⟨List.any_eq_true.mpr ⟨up, hup, by simp⟩,
            List.any_eq_true.mpr ⟨ds, hds, by simp [hdel, hc]⟩⟩
        rcases hL : buildNameToDsid contents uploaded with _ | ⟨p, rest⟩
        · rw [hL] at hk
          simp [keysMem] at hk
        · rw [hL] at hE
          simp [uploadsResolveAbort] at hE
      · exact hc
    · intro hAll
      rcases hL : buildNameToDsid contents uploaded with _ | ⟨p, rest⟩
      · simp [uploadsResolveAbort, hL]
      · exfalso
        have hk : keysMem (buildNameToDsid contents uploaded) p.1 = true := by
          rw [hL]
          simp [keysMem]
        rw [buildNameToDsid_keys] at hk
        simp only [Bool.and_eq_true] at hk
        rcases hk with ⟨h1, h2⟩
        rcases List.any_eq_true.mp h1 with ⟨up, hup, hupk⟩
        rcases List.any_eq_true.mp h2 with ⟨ds, hds, hds2⟩
        simp only [Bool.and_eq_true] at hds2
        rcases hds2 with ⟨hdel, hcon⟩
        have hfin := hAll up hup ds hds (by simpa using hdel)
        rw [beq_iff_eq.mp hupk] at hfin
        rw [hfin] at hcon
        cases hcon

def cDs2 : Dataset := ⟨"d2", "x b.fastq y", none, "ok", false⟩

/-- C5 counterexample: with two uploaded basenames of which only the second
resolves, the dict is non-empty so the abort test does not fire, yet the
first required basename is unresolved — the run continues with a missing id,
contrary to the claim that any unresolved required filename aborts. -/
theorem C5_counterexample :
    buildNameToDsid [cDs2] ["a.fastq", "b.fastq"] = [("b.fastq", "d2")] ∧
    uploadsResolveAbort (buildNameToDsid [cDs2] ["a.fastq", "b.fastq"]) = false ∧
    pyGet (buildNameToDsid [cDs2] ["a.fastq", "b.fastq"]) "a.fastq" = none :=
  ⟨rfl, rfl, rfl⟩

/-- C5 witness: the resolution characterization applied at a concrete
unresolvable basename. -/
theorem C5_upload_resolution_witness :
    pyGet (buildNameToDsid [cDs2] ["a.fastq", "b.fastq"]) "a.fastq" = none :=
  (C5_upload_resolution [cDs2] ["a.fastq", "b.fastq"] "a.fastq").1.mpr (by decide)

/-- C10: the output-appear polls run with fixed constant timeouts (1200 on
the assembler path, 900 on the conversion path) independent of the
user-supplied wait-timeout; the upload settle uses its quarter, the
post-conversion settle its half, and only the post-assembler settle the full
user-supplied value. -/
theorem C10_timeout_wiring (w w2 : Nat) (b : Bool) :
    (pollTimeouts (mainWaitCalls w b) = pollTimeouts (mainWaitCalls w2 b)) ∧
    (pollTimeouts (mainWaitCalls w false) = [1200]) ∧
    (pollTimeouts (mainWaitCalls w true) = [900]) ∧
    (settleTimeouts (mainWaitCalls w false) = [w / 4, w]) ∧
    (settleTimeouts (mainWaitCalls w true) = [w / 4, w / 2]) := by
  refine ⟨?_, rfl, rfl, rfl, rfl⟩
  cases b <;> rfl

/-! ### Paired-input mapping construction -/

/-- Line 206: `fwd_slot = read_slots.get('explicit_fwd') or left_slot`. -/
def fwdSlotOf (s : SlotState) : Option String :=
  pyOrOpt s.explicit_fwd s.left

/-- Line 207: `rev_slot = read_slots.get('explicit_rev') or right_slot`. -/
def revSlotOf (s : SlotState) : Option String :=
  pyOrOpt s.explicit_rev s.right

theorem pyOrOpt_truthy (a b : Option String) (h : truthyO a = true) :
    pyOrOpt a b = a := by
  rcases a with _ | s
  · simp [truthyO] at h
  · simp only [truthyO] at h
    simp only [pyOrOpt]
    rw [if_neg]
    simpa using h

theorem pyOrOpt_falsy (a b : Option String) (h : truthyO a = false) :
    pyOrOpt a b = b := by
  rcases a with _ | s
  · rfl
  · simp only [truthyO] at h
    have hs : s = "" := by simpa using h
    simp [pyOrOpt, hs]

/-- C6: for paired input on a non-special-cased tool, the forward slot is the
explicit fwd key when truthy else the inferred left slot (symmetrically for
reverse); when both slots resolve and both dataset ids resolve, the mapping
references the two uploaded datasets directly; when the slots do not both
resolve but an inferred single slot exists, a two-element collection grouping
the two uploaded datasets is created and the single slot references it by id
with source kind hdca; with no single slot either, the process aborts. -/
theorem C6_paired_mapping (tool_id : String) (ti : List InputNode)
    (n2d : List (String × String)) (b1 bb coll_id : String)
    (hsp : strContains (strLower tool_id) "rnaspades" = false) :
    (truthyO (find_input_slots_for_reads ti).explicit_fwd = true →
      fwdSlotOf (find_input_slots_for_reads ti) =
        (find_input_slots_for_reads ti).explicit_fwd) ∧
    (truthyO (find_input_slots_for_reads ti).explicit_fwd = false →
      fwdSlotOf (find_input_slots_for_reads ti) =
        (find_input_slots_for_reads ti).left) ∧
    (truthyO (find_input_slots_for_reads ti).explicit_rev = true →
      revSlotOf (find_input_slots_for_reads ti) =
        (find_input_slots_for_reads ti).explicit_rev) ∧
    (truthyO (find_input_slots_for_reads ti).explicit_rev = false →
      revSlotOf (find_input_slots_for_reads ti) =
        (find_input_slots_for_reads ti).right) ∧
    (∀ ld rd,
      truthyO (fwdSlotOf (find_input_slots_for_reads ti)) = true →
      truthyO (revSlotOf (find_input_slots_for_reads ti)) = true →
      pyGet n2d b1 = some ld → ld ≠ "" → pyGet n2d bb = some rd → rd ≠ "" →
      buildToolInputs tool_id ti n2d b1 (some bb) coll_id =
        .proceed (pyDictInsert
            (pyDictInsert [] (optStr (fwdSlotOf (find_input_slots_for_reads ti)))
              (.ref "hda" (some ld)))
            (optStr (revSlotOf (find_input_slots_for_reads ti)))
            (.ref "hda" (some rd))) []) ∧
    (∀ d1 d2,
      (truthyO (fwdSlotOf (find_input_slots_for_reads ti)) &&
        truthyO (revSlotOf (find_input_slots_for_reads ti))) = false →
      truthyO (find_input_slots_for_reads ti).single = true →
      pyGet n2d b1 = some d1 → pyGet n2d bb = some d2 →
      buildToolInputs tool_id ti n2d b1 (some bb) coll_id =
        .proceed [(optStr (find_input_slots_for_reads ti).single,
            .ref "hdca" (some coll_id))]
          [⟨"paired_collection_demo", none,
            [⟨b1, "hda", some d1⟩, ⟨bb, "hda", some d2⟩]⟩]) ∧
    ((truthyO (fwdSlotOf (find_input_slots_for_reads ti)) &&
        truthyO (revSlotOf (find_input_slots_for_reads ti))) = false →
      truthyO (find_input_slots_for_reads ti).single = false →
      buildToolInputs tool_id ti n2d b1 (some bb) coll_id =
        .exited "ERROR: Could not find appropriate read input slots for paired-end input.") := by
  refine ⟨fun h => pyOrOpt_truthy _ _ h, fun h => pyOrOpt_falsy _ _ h,
    fun h => pyOrOpt_truthy _ _ h, fun h => pyOrOpt_falsy _ _ h, ?_, ?_, ?_⟩
  · intro ld rd hf hr h1 h1e h2 h2e
    simp only [fwdSlotOf, revSlotOf] at hf hr ⊢
    simp only [buildToolInputs]
    rw [if_neg (by simp [hsp])]
    rw [if_pos (by simp [hf, hr])]
    rw [h1, h2]
    rw [if_neg (by simp [truthyO, h1e, h2e])]
  · intro d1 d2 hfr hs h1 h2
    simp only [fwdSlotOf, revSlotOf] at hfr
    simp only [buildToolInputs]
    rw [if_neg (by simp [hsp])]
    rw [if_neg (by simp [hfr])]
    rw [if_pos (by simp [hs])]
    rw [h1, h2]
  · intro hfr hs
    simp only [fwdSlotOf, revSlotOf] at hfr
    simp only [buildToolInputs]
    rw [if_neg (by simp [hsp])]
    rw [if_neg (by simp [hfr])]
    rw [if_neg (by simp [hs])]

def cTi6 : List InputNode := [.node (some "fastq_in") none none none "data" []]

def cN2d6 : List (String × String) := [("r1.fq", "d1"), ("r2.fq", "d2")]

/-- C6 witness: a tool whose schema exposes only a single `data` input named
`fastq_in` makes the paired branch create a two-element collection and
reference it via hdca. -/
theorem C6_paired_mapping_witness :
    buildToolInputs "trinity" cTi6 cN2d6 "r1.fq" (some "r2.fq") "c0" =
      .proceed [("fastq_in", .ref "hdca" (some "c0"))]
        [⟨"paired_collection_demo", none,
          [⟨"r1.fq", "hda", some "d1"⟩, ⟨"r2.fq", "hda", some "d2"⟩]⟩] := by
  have h := (C6_paired_mapping "trinity" cTi6 cN2d6 "r1.fq" "r2.fq" "c0"
      (by rfl)).2.2.2.2.2.1 "d1" "d2"
    (by simp only [cTi6, find_input_slots_for_reads, walkList]; rfl)
    (by simp only [cTi6, find_input_slots_for_reads, walkList]; rfl) rfl rfl
  rw [h]
  simp only [cTi6, find_input_slots_for_reads, walkList]
  rfl

/-! ### Unreachability of the conversion fallback -/

theorem pyDictInsert_ne_nil {β : Type} (m : List (String × β)) (k : String) (v : β) :
    pyDictInsert m k v ≠ [] := by
  unfold pyDictInsert
  rcases Bool.eq_false_or_eq_true (m.any (fun p => p.1 == k)) with hb | hb
  · rw [if_pos hb]
    rcases m with _ | ⟨p, m⟩
    · simp at hb
    · simp
  · rw [if_neg (by simp [hb])]
    simp

theorem buildToolInputs_mapping_ne_nil (tool_id : String) (ti : List InputNode)
    (n2d : List (String × String)) (b1 : String) (b2 : Option String)
    (coll_id : String) (m : List (String × ParamValue)) (colls : List CollDesc)
    (h : buildToolInputs tool_id ti n2d b1 b2 coll_id = .proceed m colls) :
    m ≠ [] := by
  simp only [buildToolInputs] at h
  repeat' split at h
  all_goals cases h
  all_goals first
    | exact pyDictInsert_ne_nil _ _ _
    | simp

/-- C7 (amended): the fallback-conversion branch is entered exactly when the
mapping is empty, but that state is unreachable — every path of the mapping
construction either populates the mapping or exits, so the branch is dead
code; the conversion mapping (modelled directly on the branch body) sets the
four conventional input keys to the same reference and the three boolean
flag keys to true, and if no conversion tool is found the branch aborts. -/
theorem C7_fallback_conversion (tool_id : String) (ti : List InputNode)
    (n2d : List (String × String)) (b1 : String) (b2 : Option String)
    (coll_id : String) (m : List (String × ParamValue)) (colls : List CollDesc)
    (tools : List (String × String)) (dsid : Option String) :
    (buildToolInputs tool_id ti n2d b1 b2 coll_id = .proceed m colls →
      entersConversion m = false) ∧
    (conv_inputs dsid =
      [("input_fastq", .ref "hda" dsid), ("input_file", .ref "hda" dsid),
       ("fastq", .ref "hda" dsid), ("input", .ref "hda" dsid),
       ("to_fasta", .bool true), ("fasta_output", .bool true),
       ("convert_to_fasta", .bool true)]) ∧
    (find_tool_by_keywords tools conv_candidates = none →
      conversionBranch tools dsid = .exitedNoTool) := by
  refine ⟨?_, rfl, ?_⟩
  · intro h
    have hne := buildToolInputs_mapping_ne_nil tool_id ti n2d b1 b2 coll_id m colls h
    rcases m with _ | ⟨p, m⟩
    · exact absurd rfl hne
    · rfl
  · intro h
    simp only [conversionBranch]
    rw [h]
    rfl

/-- C7 counterexample: no inputs whatsoever make the mapping-construction
step succeed with an empty mapping, so the claimed reachability of the
empty-mapping state is false. -/
theorem C7_counterexample : ¬ EmptyMappingReachable := by
  rintro ⟨t, ti, n2d, b1, b2, c, colls, h⟩
  exact buildToolInputs_mapping_ne_nil t ti n2d b1 b2 c [] colls h rfl

/-- C7 witness: a populated rnaSPAdes single-end mapping does not enter the
conversion branch, and an empty catalog makes the conversion branch abort. -/
theorem C7_fallback_conversion_witness :
    entersConversion
      [("libraries_0|files_0|file_type|type", ParamValue.str "unpaired"),
       ("libraries_0|files_0|file_type|unpaired_reads",
         ParamValue.ref "hda" (some "d1"))] = false ∧
    conversionBranch [] none = .exitedNoTool :=
  ⟨(C7_fallback_conversion "rnaspades" [] [("b.fq", "d1")] "b.fq" none "c0"
      [("libraries_0|files_0|file_type|type", .str "unpaired"),
       ("libraries_0|files_0|file_type|unpaired_reads", .ref "hda" (some "d1"))]
      [] [] none).1 (by rfl),
   (C7_fallback_conversion "x" [] [] "b" none "c" [] [] [] none).2.2 rfl⟩

/-! ### The rnaSPAdes unvalidated forward id -/

def c1_n2d : List (String × String) := [("sample_R2.fastq.gz", "d2")]

def cHistDs : Dataset := ⟨"d2", "sample_R2.fastq.gz x", none, "ok", false⟩

/-- C1: the code violates the claimed invariant.  With two uploaded
basenames of which only the second resolves, the resolution dict is
non-empty so the only abort check passes, and on the rnaSPAdes paired branch
the forward-reads reference is submitted to run_tool with `id: None` — the
fastq1 id is never validated (only fastq2 is), so the orchestrator does not
abort before submission. -/
theorem C1_unresolved_id_submitted :
    buildNameToDsid [cHistDs] ["sample_R1.fastq.gz", "sample_R2.fastq.gz"] = c1_n2d ∧
    uploadsResolveAbort c1_n2d = false ∧
    pyGet c1_n2d "sample_R1.fastq.gz" = none ∧
    buildToolInputs "toolshed_rnaspades_4" [] c1_n2d "sample_R1.fastq.gz"
        (some "sample_R2.fastq.gz") "c0" =
      .proceed
        [("libraries_0|files_0|file_type|type", .str "separate"),
         ("libraries_0|files_0|file_type|fwd_reads", .ref "hda" none),
         ("libraries_0|files_0|file_type|rev_reads", .ref "hda" (some "d2"))] [] :=
  ⟨rfl, rfl, rfl, by rfl⟩

end Galaxy
